import Mathlib

/-!
Verification of the aggregation engine and report data model of
`modules/irwin/AnalysisReport.py`.

Shallow embedding conventions:
* Python ints are modelled as `ℤ` (move/game fields) or `ℕ` (lengths, indices);
  the percentile parameter `p` and all averages are modelled as exact `ℚ`
  (the source uses floats; the claims are about the idealized arithmetic);
  standard deviations, which involve a square root, live in `ℝ`.
* A Python call that can raise (`losses[-1]` on an empty list, `reduce` over an
  empty iterable) is modelled as an `Option`-valued function returning `none`
  exactly where the source raises.
* `json.dumps` on the reporting functions is dropped: we model the payload
  value that is serialized, not the string.
* Python's stable in-place `sort(key=lambda obj: -obj.activation)` is modelled
  by a stable insertion sort on the descending-by-activation order; a stable
  sort on the same key is unique, so the resulting list is the source's.
-/

/-- One ply of one game (`MoveReport` namedtuple). `rank` is `None`-able in the
source, hence `Option ℤ`. -/
structure MoveReport where
  activation : ℤ
  rank : Option ℤ
  ambiguity : ℤ
  advantage : ℤ
  loss : ℤ
deriving DecidableEq, Repr

/-- One game's worth of moves for one report (`GameReport` namedtuple). -/
structure GameReport where
  id : String
  reportId : String
  gameId : String
  activation : ℤ
  moves : List MoveReport
deriving DecidableEq, Repr

/-- The collection of game reports (`GameReportStore` namedtuple). -/
structure GameReportStore where
  gameReports : List GameReport
deriving DecidableEq, Repr

/-- Insert a game into a descending-by-activation list, after any game of
equal or larger activation (the stable position). -/
def insertDesc (g : GameReport) : List GameReport → List GameReport
  | [] => [g]
  | h :: t => if h.activation < g.activation then g :: h :: t else h :: insertDesc g t

/-- `self.gameReports.sort(key=lambda obj: -obj.activation)`: stable sort,
descending by activation, rendered as a stable insertion sort (a stable sort
on the same key produces the identical list). -/
def sortedReports (s : GameReportStore) : List GameReport :=
  s.gameReports.foldl (fun acc g => insertDesc g acc) []

/-- `GameReportStore.topGames`: keep the games at sorted positions `i` with
`i <= p*len(gameReports)`, or with `activation >= 90`. -/
def topGames (p : ℚ) (s : GameReportStore) : List GameReport :=
  ((sortedReports s).enum.filter
    (fun ig => decide ((ig.1 : ℚ) ≤ p * (s.gameReports.length : ℚ) ∨ 90 ≤ ig.2.activation))).map
    Prod.snd

/-- `GameReportStore.longestGame`: `0` for an empty collection, otherwise the
maximum move-sequence length. -/
def longestGame (s : GameReportStore) : ℕ :=
  if s.gameReports = [] then 0
  else (s.gameReports.map (fun g => g.moves.length)).foldr max 0

/-- `GameReport.losses`: the per-move loss list, with the final entry forced to
`0` when it exceeds `50`.  The source reads `losses[-1]` unguarded, so a game
with no moves raises `IndexError`: modelled by `none`. -/
def GameReport.losses (g : GameReport) : Option (List ℤ) :=
  let ls := g.moves.map (fun m => m.loss)
  match ls.getLast? with
  | none => none
  | some last => some (if 50 < last then ls.set (ls.length - 1) 0 else ls)

/-- `GameReport.ranks`: per-move ranks with `subNone` substituted for `None`. -/
def GameReport.ranks (g : GameReport) (subNone : ℤ) : List ℤ :=
  g.moves.map (fun m => m.rank.getD subNone)

/-- `GameReport.activations`: the per-move activation list. -/
def GameReport.activations (g : GameReport) : List ℤ :=
  g.moves.map (fun m => m.activation)

/-- `GameReportStore.losses` (at `top=False`): the loss list of every game; the
whole call raises as soon as one game raises, modelled by `mapM`. -/
def GameReportStore.losses (s : GameReportStore) : Option (List (List ℤ)) :=
  s.gameReports.mapM GameReport.losses

/-- `GameReportStore.ranks` (at `top=False`, the `subNone=6` call sites). -/
def GameReportStore.ranks (s : GameReportStore) (subNone : ℤ) : List (List ℤ) :=
  s.gameReports.map (fun g => g.ranks subNone)

/-- `max([len(l) for l in lol])`, total at `[]` (the source raises there; every
use below is guarded by a non-emptiness precondition). -/
def maxLen {α : Type} (lol : List (List α)) : ℕ :=
  (lol.map List.length).foldr max 0

/-- One row step of `zipLOL`: append `l[i]` to bin `i` for every index `i` of
`l` holding a non-`None` value.  The source's `except IndexError: continue`
stops the row at `len(l)`, which appends nothing beyond `len(l)` — exactly
this function. -/
def zipBins {α : Type} (bins : List (List α)) (l : List (Option α)) : List (List α) :=
  bins.enum.map (fun ib =>
    match l.getD ib.1 none with
    | some v => ib.2 ++ [v]
    | none => ib.2)

/-- `GameReportStore.zipLOL`: ragged transpose, dropping `None`s and
out-of-range positions. -/
def zipLOL {α : Type} (lol : List (List (Option α))) : List (List α) :=
  lol.foldl zipBins (List.replicate (maxLen lol) [])

/-- `np.average` of a column, exact: sum divided by length. -/
def avgQ (l : List ℚ) : ℚ := l.sum / (l.length : ℚ)

/-- Population variance of a column (what `np.std` squares). -/
def varQ (l : List ℚ) : ℚ := ((l.map (fun x => (x - avgQ l) ^ 2)).sum) / (l.length : ℚ)

/-- `np.std` of a column: population standard deviation. -/
noncomputable def stdR (l : List ℚ) : ℝ := Real.sqrt ((varQ l : ℚ) : ℝ)

/-- `GameReportStore.zipAvgLOL`. -/
def zipAvgLOL (lol : List (List (Option ℚ))) : List ℚ :=
  (zipLOL lol).map avgQ

/-- `GameReportStore.zipStdLOL`. -/
noncomputable def zipStdLOL (lol : List (List (Option ℚ))) : List ℝ :=
  (zipLOL lol).map stdR

/-- `GameReportStore.stdBracket`: per column, `top = avg + std`,
`bottom = max(avg - std, lowerLimit)`, returned as the `(top, bottom)` pair. -/
noncomputable def stdBracket (lol : List (List (Option ℚ))) (lowerLimit : ℚ) :
    List ℝ × List ℝ :=
  let stds := zipStdLOL lol
  let avgs := zipAvgLOL lol
  (avgs.enum.map (fun ia => ((ia.2 : ℚ) : ℝ) + stds.getD ia.1 0),
   avgs.enum.map (fun ia => max (((ia.2 : ℚ) : ℝ) - stds.getD ia.1 0) ((lowerLimit : ℚ) : ℝ)))

/-- Embed an error-free integer table as `zipLOL` input. -/
def embedQ (lol : List (List ℤ)) : List (List (Option ℚ)) :=
  lol.map (fun l => l.map (fun z => some ((z : ℤ) : ℚ)))

/-- `GameReportStore.averageLossByMove` (at `top=False`), payload of the
`json.dumps`: `[]` when the longest game is empty, else the column averages of
the (fallible) loss table. -/
def averageLossByMove (s : GameReportStore) : Option (List ℚ) :=
  if longestGame s = 0 then some []
  else s.losses.map (fun lol => zipAvgLOL (embedQ lol))

/-- `GameReportStore.averageRankByMove` (at `top=False`). -/
def averageRankByMove (s : GameReportStore) : List ℚ :=
  if longestGame s = 0 then []
  else zipAvgLOL (embedQ (s.ranks 6))

/-- `GameReportStore.stdBracketLossByMove` (at `top=False`); the guard path's
empty payload is rendered as `([], [])`. -/
noncomputable def stdBracketLossByMove (s : GameReportStore) : Option (List ℝ × List ℝ) :=
  if longestGame s = 0 then some ([], [])
  else s.losses.map (fun lol => stdBracket (embedQ lol) 0)

/-- `GameReportStore.stdBracketRankByMove` (at `top=False`). -/
noncomputable def stdBracketRankByMove (s : GameReportStore) : List ℝ × List ℝ :=
  if longestGame s = 0 then ([], [])
  else stdBracket (embedQ (s.ranks 6)) 1

/-- The decile histogram `[sum(int(a in range(i,i+10)) for a in acts) for i in
range(0,100,10)][::-1]`. -/
def decileHistogram (acts : List ℤ) : List ℤ :=
  ((List.range' 0 10 10).map (fun (i : ℕ) =>
    (acts.map (fun a => if ((i : ℕ) : ℤ) ≤ a ∧ a < ((i : ℕ) : ℤ) + 10 then (1 : ℤ) else 0)).sum)).reverse

/-- `GameReportStore.binnedActivations` (at `top=False`): decile histogram of
the game-level activations, highest decile first. -/
def binnedActivations (s : GameReportStore) : List ℤ :=
  decileHistogram (s.gameReports.map (fun g => g.activation))

/-- `GameReportStore.binnedMoveActivations` (at `top=False`):
`reduce(operator.concat, ...)` raises `TypeError` on an empty collection,
modelled by `none`; otherwise a left fold of list concatenation. -/
def binnedMoveActivations (s : GameReportStore) : Option (List ℤ) :=
  match s.gameReports.map GameReport.activations with
  | [] => none
  | x :: xs => some (decileHistogram (xs.foldl (fun acc l => acc ++ l) x))

/-- Python `int(...)` on a rational: truncation toward zero. -/
def truncInt (q : ℚ) : ℤ := if 0 ≤ q then ⌊q⌋ else ⌈q⌉

/-- The opaque external analysed move, carrying exactly the values the builder
reads: `trueRank()`, `ambiguity()`, `advantage()`, `winningChancesLoss()`. -/
structure AnalysedMove where
  trueRank : Option ℤ
  ambiguity : ℤ
  advantage : ℚ
  winningChancesLoss : ℚ
deriving DecidableEq, Repr

/-- The opaque external analysed game: `gameId` plus its analysed moves. -/
structure AnalysedGame where
  gameId : String
  analysedMoves : List AnalysedMove
deriving DecidableEq, Repr

/-- The per-game slice of the model output that `GameReport.new` consumes:
`c1` stands for `gamePredictions[0][1][0]` and `c2` for
`gamePredictions[0][2][0]`, with the per-move singleton arrays (`[0]` in
`moveActivation`) flattened to their scalar entry. -/
structure GamePredictions where
  c1 : List ℚ
  c2 : List ℚ
deriving DecidableEq, Repr

/-- `movePredictions`: `list(zip(gamePredictions[1][0], gamePredictions[2][0]))`
— a truncating zip of the two component lists. -/
def movePredictions (gp : GamePredictions) : List (ℚ × ℚ) :=
  gp.c1.zip gp.c2

/-- `moveActivation`: `int(50*(movePrediction[0][0]+movePrediction[1][0]))`. -/
def moveActivation (mp : ℚ × ℚ) : ℤ :=
  truncInt (50 * (mp.1 + mp.2))

/-- `MoveReport.new`. -/
def MoveReport.new (am : AnalysedMove) (mp : ℚ × ℚ) : MoveReport :=
  { activation := moveActivation mp
    rank := am.trueRank
    ambiguity := am.ambiguity
    advantage := truncInt (100 * am.advantage)
    loss := truncInt (100 * am.winningChancesLoss) }

/-- `GameReport.new` (the spec's `buildGame`): pairs analysed moves with
prediction entries by a truncating `zip`.  The `userId` argument is accepted
and unused, as in the source. -/
def GameReport.new (ag : AnalysedGame) (gameActivation : ℤ) (gp : GamePredictions)
    (reportId : String) (userId : String) : GameReport :=
  { id := ag.gameId ++ "/" ++ reportId
    reportId := reportId
    gameId := ag.gameId
    activation := gameActivation
    moves := (ag.analysedMoves.zip (movePredictions gp)).map
      (fun amp => MoveReport.new amp.1 amp.2) }

/-- The persisted shape of a move report: a document with keys
`a`, `r`, `m`, `o`, `l`. -/
structure MoveBSON where
  a : ℤ
  r : Option ℤ
  m : ℤ
  o : ℤ
  l : ℤ
deriving DecidableEq, Repr

/-- The persisted shape of a game report: a document with keys `_id` (field
`id` here), `reportId`, `gameId`, `activation`, `moves`. -/
structure GameBSON where
  id : String
  reportId : String
  gameId : String
  activation : ℤ
  moves : List MoveBSON
deriving DecidableEq, Repr

/-- `MoveReportBSONHandler.writes`. -/
def MoveReportBSONHandler.writes (mv : MoveReport) : MoveBSON :=
  { a := mv.activation, r := mv.rank, m := mv.ambiguity, o := mv.advantage, l := mv.loss }

/-- `MoveReportBSONHandler.reads`. -/
def MoveReportBSONHandler.reads (b : MoveBSON) : MoveReport :=
  { activation := b.a, rank := b.r, ambiguity := b.m, advantage := b.o, loss := b.l }

/-- `GameReportBSONHandler.writes`. -/
def GameReportBSONHandler.writes (g : GameReport) : GameBSON :=
  { id := g.id
    reportId := g.reportId
    gameId := g.gameId
    activation := g.activation
    moves := g.moves.map MoveReportBSONHandler.writes }

/-- `GameReportBSONHandler.reads`. -/
def GameReportBSONHandler.reads (b : GameBSON) : GameReport :=
  { id := b.id
    reportId := b.reportId
    gameId := b.gameId
    activation := b.activation
    moves := b.moves.map MoveReportBSONHandler.reads }

/-- A concrete game used by witnesses and counterexamples: given game-level
activation and per-move losses (each move's activation mirrors its loss). -/
def sampleGame (act : ℤ) (ls : List ℤ) : GameReport :=
  { id := "id", reportId := "rep", gameId := "game", activation := act,
    moves := ls.map (fun z =>
      { activation := z, rank := none, ambiguity := 0, advantage := 0, loss := z }) }

/-! ### Lemmas about the ragged transpose -/

lemma getElem?_zipBins {α : Type} (bins : List (List α)) (l : List (Option α)) (i : ℕ) :
    (zipBins bins l)[i]? = bins[i]?.map (fun b =>
      match l.getD i none with
      | some v => b ++ [v]
      | none => b) := by
  simp only [zipBins, List.getElem?_map, List.getElem?_enum, Option.map_map]
  cases bins[i]? <;> rfl

lemma length_zipBins {α : Type} (bins : List (List α)) (l : List (Option α)) :
    (zipBins bins l).length = bins.length := by
  simp [zipBins]

lemma foldl_zipBins_length {α : Type} (P : List (List (Option α))) :
    ∀ bins : List (List α), (P.foldl zipBins bins).length = bins.length := by
  induction P with
  | nil => intro bins; rfl
  | cons l P ih => intro bins; rw [List.foldl_cons, ih, length_zipBins]

lemma foldl_zipBins_getElem? {α : Type} (P : List (List (Option α))) :
    ∀ (bins : List (List α)) (i : ℕ),
      (P.foldl zipBins bins)[i]? =
        bins[i]?.map (fun b => b ++ P.filterMap (fun l => l.getD i none)) := by
  induction P with
  | nil =>
      intro bins i
      simp
  | cons l P ih =>
      intro bins i
      rw [List.foldl_cons, ih, getElem?_zipBins, Option.map_map, List.filterMap_cons]
      cases bins[i]? with
      | none => rfl
      | some b => cases hl : l.getD i none <;> simp [hl, Function.comp]

lemma zipLOL_length {α : Type} (lol : List (List (Option α))) :
    (zipLOL lol).length = maxLen lol := by
  rw [zipLOL, foldl_zipBins_length, List.length_replicate]

lemma zipLOL_getElem? {α : Type} (lol : List (List (Option α))) (i : ℕ)
    (hi : i < maxLen lol) :
    (zipLOL lol)[i]? = some (lol.filterMap (fun l => l.getD i none)) := by
  rw [zipLOL, foldl_zipBins_getElem?, List.getElem?_replicate, if_pos hi]
  simp

lemma getD_map_some {α : Type} (l : List α) (i : ℕ) :
    (l.map some).getD i none = l[i]? := by
  rw [List.getD_eq_getElem?_getD, List.getElem?_map]
  cases l[i]? <;> rfl

lemma maxLen_map_some {α : Type} (lol : List (List α)) :
    maxLen (lol.map (List.map some)) = maxLen lol := by
  unfold maxLen
  rw [List.map_map]
  have : (List.length ∘ List.map some : List α → ℕ) = List.length :=
    funext (fun l => List.length_map l some)
  rw [this]

lemma length_le_maxLen {α : Type} {lol : List (List α)} {l : List α} (h : l ∈ lol) :
    l.length ≤ maxLen lol := by
  induction lol with
  | nil => cases h
  | cons x xs ih =>
      rcases List.mem_cons.mp h with h | h
      · subst h; exact le_max_left _ _
      · exact le_trans (ih h) (le_max_right _ _)

lemma maxLen_of_all_eq {α : Type} {lol : List (List α)} {L : ℕ} (hne : lol ≠ [])
    (h : ∀ l ∈ lol, l.length = L) : maxLen lol = L := by
  induction lol with
  | nil => cases hne rfl
  | cons x xs ih =>
      have hx : x.length = L := h x (List.mem_cons_self _ _)
      rcases eq_or_ne xs [] with h' | h'
      · subst h'; simp [maxLen, hx]
      · have := ih h' (fun l hl => h l (List.mem_cons_of_mem _ hl))
        show max x.length (maxLen xs) = L
        rw [hx, this, max_self]

lemma length_filterMap_of_isSome {α β : Type} (f : α → Option β) (l : List α)
    (h : ∀ x ∈ l, (f x).isSome) : (l.filterMap f).length = l.length := by
  induction l with
  | nil => rfl
  | cons a t ih =>
      rw [List.filterMap_cons]
      cases ha : f a with
      | none =>
          have := h a (List.mem_cons_self _ _)
          rw [ha] at this; cases this
      | some b =>
          simp only [List.length_cons]
          rw [ih (fun x hx => h x (List.mem_cons_of_mem _ hx))]

/-- C2: for every non-empty list of sequences, `zipLOL` produces one column per
index `i` in `[0, longest)`; column `i` holds exactly the values at index `i`
of the sequences whose length exceeds `i`, shorter sequences being omitted; for
equal-length sequences there are exactly `length` columns of exactly `N`
values each. -/
theorem zipLOL_transpose_spec {α : Type} (lol : List (List α)) (hne : lol ≠ []) :
    (zipLOL (lol.map (List.map some))).length = maxLen lol ∧
    (∀ i, i < maxLen lol →
      (zipLOL (lol.map (List.map some)))[i]? = some (lol.filterMap (fun l => l[i]?))) ∧
    (∀ L, (∀ l ∈ lol, l.length = L) →
      (zipLOL (lol.map (List.map some))).length = L ∧
      ∀ c ∈ zipLOL (lol.map (List.map some)), c.length = lol.length) := by
  have hcol : ∀ i, i < maxLen lol →
      (zipLOL (lol.map (List.map some)))[i]? = some (lol.filterMap (fun l => l[i]?)) := by
    intro i hi
    rw [zipLOL_getElem? _ i (by rw [maxLen_map_some]; exact hi), List.filterMap_map]
    congr 1
    apply List.filterMap_congr
    intro l _
    exact getD_map_some l i
  refine ⟨by rw [zipLOL_length, maxLen_map_some], hcol, ?_⟩
  intro L hL
  have hmax : maxLen lol = L := maxLen_of_all_eq hne hL
  refine ⟨by rw [zipLOL_length, maxLen_map_some, hmax], ?_⟩
  intro c hc
  rcases List.mem_iff_getElem?.mp hc with ⟨i, hi⟩
  have hz : (zipLOL (lol.map (List.map some))).length = maxLen lol := by
    rw [zipLOL_length, maxLen_map_some]
  have hilt : i < maxLen lol := by
    rcases List.getElem?_eq_some.mp hi with ⟨hlt, _⟩
    rwa [hz] at hlt
  rw [hcol i hilt] at hi
  have hceq := Option.some.inj hi
  subst hceq
  apply length_filterMap_of_isSome
  intro l hl
  have : i < l.length := by rw [hL l hl, ← hmax]; exact hilt
  rw [List.getElem?_eq_getElem this]
  rfl

/-- The closed concrete input of the C2 witness. -/
def lolW : List (List ℤ) := [[1], [2, 3]]

/-- Witness for the transpose theorem at the ragged input `[[1], [2, 3]]`. -/
theorem zipLOL_transpose_spec_witness :
    (zipLOL (lolW.map (List.map some))).length = maxLen lolW ∧
    (∀ i, i < maxLen lolW →
      (zipLOL (lolW.map (List.map some)))[i]? = some (lolW.filterMap (fun l => l[i]?))) ∧
    (∀ L, (∀ l ∈ lolW, l.length = L) →
      (zipLOL (lolW.map (List.map some))).length = L ∧
      ∀ c ∈ zipLOL (lolW.map (List.map some)), c.length = lolW.length) :=
  zipLOL_transpose_spec lolW (by decide)

/-! ### The top-games selection -/

/-- The spec's description of `topGames`: after the descending sort, keep the
first `ceil(p * N)` positions, or any game with activation at least 90. -/
def topGamesSpecCeil (p : ℚ) (s : GameReportStore) : List GameReport :=
  ((sortedReports s).enum.filter
    (fun ig => decide ((ig.1 : ℤ) < ⌈p * (s.gameReports.length : ℚ)⌉ ∨ 90 ≤ ig.2.activation))).map
    Prod.snd

/-- The corrected description: the kept prefix is the first `floor(p * N) + 1`
positions (the source keeps position `i` when `i <= p * N`). -/
def topGamesFloorSucc (p : ℚ) (s : GameReportStore) : List GameReport :=
  ((sortedReports s).enum.filter
    (fun ig =>
      decide ((ig.1 : ℤ) < ⌊p * (s.gameReports.length : ℚ)⌋ + 1 ∨ 90 ≤ ig.2.activation))).map
    Prod.snd

/-- C1 (counterexample): with two games of activations 20 and 10 and `p = 1/2`,
`p * N = 1` is an integer, the source keeps positions `0` and `1` but the
first-`ceil(p * N)`-positions reading keeps only position `0`. -/
theorem topGames_ceil_counterexample :
    topGames (1/2) ⟨[sampleGame 20 [], sampleGame 10 []]⟩ ≠
      topGamesSpecCeil (1/2) ⟨[sampleGame 20 [], sampleGame 10 []]⟩ := by
  have hs : sortedReports ⟨[sampleGame 20 [], sampleGame 10 []]⟩ =
      [sampleGame 20 [], sampleGame 10 []] := by
    decide
  have h1 : topGames (1/2) ⟨[sampleGame 20 [], sampleGame 10 []]⟩ =
      [sampleGame 20 [], sampleGame 10 []] := by
    rw [topGames, hs]
    norm_num [List.enum, List.enumFrom, List.filter, sampleGame]
  have h2 : topGamesSpecCeil (1/2) ⟨[sampleGame 20 [], sampleGame 10 []]⟩ =
      [sampleGame 20 []] := by
    rw [topGamesSpecCeil, hs]
    norm_num [List.enum, List.enumFrom, List.filter, sampleGame]
  rw [h1, h2]
  simp

/-- C1 (amended): `topGames p` returns exactly the games at sorted positions
`i` with `i < floor(p*N) + 1` (equivalently `i ≤ p*N`), together with every
game of activation at least 90; an empty collection yields the empty list. -/
theorem topGames_boundary (p : ℚ) (s : GameReportStore) :
    topGames p s = topGamesFloorSucc p s ∧ (s.gameReports = [] → topGames p s = []) := by
  constructor
  · unfold topGames topGamesFloorSucc
    congr 1
    apply List.filter_congr
    intro ig _
    rw [decide_eq_decide]
    constructor
    · rintro (h | h)
      · left
        rw [Int.lt_add_one_iff, Int.le_floor]
        exact_mod_cast h
      · right; exact h
    · rintro (h | h)
      · left
        rw [Int.lt_add_one_iff, Int.le_floor] at h
        exact_mod_cast h
      · right; exact h
  · intro h
    simp [topGames, sortedReports, h]

/-- Witness for the boundary theorem: on the empty store both readings agree
and the result is empty. -/
theorem topGames_boundary_witness :
    topGames (1/2) ⟨[]⟩ = topGamesFloorSucc (1/2) ⟨[]⟩ ∧ topGames (1/2) ⟨[]⟩ = [] :=
  ⟨(topGames_boundary (1/2) ⟨[]⟩).1, (topGames_boundary (1/2) ⟨[]⟩).2 rfl⟩

lemma insertDesc_perm (g : GameReport) (l : List GameReport) :
    (insertDesc g l).Perm (g :: l) := by
  induction l with
  | nil => exact List.Perm.refl _
  | cons h t ih =>
      rw [insertDesc]
      by_cases hc : h.activation < g.activation
      · rw [if_pos hc]
      · rw [if_neg hc]
        exact (List.Perm.cons h ih).trans (List.Perm.swap g h t)

lemma sortedReports_perm (s : GameReportStore) :
    (sortedReports s).Perm s.gameReports := by
  have key : ∀ (l acc : List GameReport),
      (l.foldl (fun a g => insertDesc g a) acc).Perm (l ++ acc) := by
    intro l
    induction l with
    | nil => intro acc; exact List.Perm.refl _
    | cons g t ih =>
        intro acc
        rw [List.foldl_cons]
        refine (ih (insertDesc g acc)).trans ?_
        refine (List.Perm.append_left t (insertDesc_perm g acc)).trans ?_
        exact List.perm_middle
  simpa using key s.gameReports []

lemma mem_enumFrom_filter_map {β : Type} (P : ℕ × β → Bool) (x : β) :
    ∀ (n : ℕ) (l : List β), x ∈ l → (∀ i, P (i, x) = true) →
      x ∈ ((l.enumFrom n).filter P).map Prod.snd := by
  intro n l
  induction l generalizing n with
  | nil => intro h; cases h
  | cons a t ih =>
      intro hmem hP
      rw [List.enumFrom_cons, List.filter_cons]
      rcases List.mem_cons.mp hmem with h | h
      · subst h
        rw [if_pos (hP n)]
        exact List.mem_map.mpr ⟨(n, x), List.mem_cons_self _ _, rfl⟩
      · have htail := ih (n + 1) h hP
        by_cases hpa : P (n, a) = true
        · rw [if_pos hpa, List.map_cons]
          exact List.mem_cons_of_mem _ htail
        · rw [if_neg hpa]
          exact htail

/-- C6: every game of activation at least 90 is a member of `topGames p`,
for every `p`. -/
theorem topGames_includes_extreme (p : ℚ) (s : GameReportStore) (g : GameReport)
    (hmem : g ∈ s.gameReports) (hact : 90 ≤ g.activation) : g ∈ topGames p s := by
  have hs : g ∈ sortedReports s := (sortedReports_perm s).mem_iff.mpr hmem
  have henum : (sortedReports s).enum = (sortedReports s).enumFrom 0 := rfl
  rw [topGames, henum]
  apply mem_enumFrom_filter_map _ _ 0 _ hs
  intro i
  exact decide_eq_true (Or.inr hact)

/-! ### The standard-deviation band -/

/-- C7: per column of the transpose, `stdBracket` returns
`top = mean + std` and `bottom = max(mean - std, lowerLimit)`; in particular no
bottom entry is below `lowerLimit`. -/
theorem stdBracket_spec (lol : List (List (Option ℚ))) (lowerLimit : ℚ)
    (hne : lol ≠ []) (hll : 0 ≤ lowerLimit) (i : ℕ) (hi : i < (zipLOL lol).length) :
    (stdBracket lol lowerLimit).1[i]? =
      some ((avgQ (zipLOL lol)[i] : ℝ) + stdR (zipLOL lol)[i]) ∧
    (stdBracket lol lowerLimit).2[i]? =
      some (max ((avgQ (zipLOL lol)[i] : ℝ) - stdR (zipLOL lol)[i]) (lowerLimit : ℝ)) ∧
    ∀ b ∈ (stdBracket lol lowerLimit).2, (lowerLimit : ℝ) ≤ b := by
  have havg : (zipAvgLOL lol)[i]? = some (avgQ (zipLOL lol)[i]) := by
    rw [zipAvgLOL, List.getElem?_map, List.getElem?_eq_getElem hi]
    rfl
  have hstd : (zipStdLOL lol)[i]?.getD 0 = stdR (zipLOL lol)[i] := by
    rw [zipStdLOL, List.getElem?_map, List.getElem?_eq_getElem hi]
    rfl
  refine ⟨?_, ?_, ?_⟩
  · show ((zipAvgLOL lol).enum.map
      (fun ia => ((ia.2 : ℚ) : ℝ) + (zipStdLOL lol).getD ia.1 0))[i]? = _
    rw [List.getElem?_map, List.getElem?_enum, havg]
    simp [hstd]
  · show ((zipAvgLOL lol).enum.map
      (fun ia => max (((ia.2 : ℚ) : ℝ) - (zipStdLOL lol).getD ia.1 0) ((lowerLimit : ℚ) : ℝ)))[i]? = _
    rw [List.getElem?_map, List.getElem?_enum, havg]
    simp [hstd]
  · intro b hb
    have hb' : b ∈ (zipAvgLOL lol).enum.map
        (fun ia => max (((ia.2 : ℚ) : ℝ) - (zipStdLOL lol).getD ia.1 0) ((lowerLimit : ℚ) : ℝ)) := hb
    rcases List.mem_map.mp hb' with ⟨ia, _, hEq⟩
    rw [← hEq]
    exact le_max_right _ _

/-- Witness for the std-band theorem at the one-column input `[[1]]` with
`lowerLimit = 0`. -/
theorem stdBracket_spec_witness :
    (stdBracket [[some (1 : ℚ)]] 0).1[0]? =
      some ((avgQ (zipLOL [[some (1 : ℚ)]])[0] : ℝ) + stdR (zipLOL [[some (1 : ℚ)]])[0]) ∧
    (stdBracket [[some (1 : ℚ)]] 0).2[0]? =
      some (max ((avgQ (zipLOL [[some (1 : ℚ)]])[0] : ℝ) - stdR (zipLOL [[some (1 : ℚ)]])[0])
        ((0 : ℚ) : ℝ)) ∧
    ∀ b ∈ (stdBracket [[some (1 : ℚ)]] 0).2, ((0 : ℚ) : ℝ) ≤ b :=
  stdBracket_spec [[some (1 : ℚ)]] 0 (by decide) (le_refl 0) 0 (by decide)

/-! ### The loss series -/

lemma set_last_eq_dropLast_append {α : Type} (l : List α) (x : α) (h : l ≠ []) :
    l.set (l.length - 1) x = l.dropLast ++ [x] := by
  induction l with
  | nil => cases h rfl
  | cons a t ih =>
      cases t with
      | nil => rfl
      | cons b t' =>
          have hlen : (a :: b :: t').length - 1 = ((b :: t').length - 1) + 1 := by
            simp
          rw [hlen, List.set_cons_succ, ih (by simp), List.dropLast_cons₂, List.cons_append]

/-- C4: for a game with at least one move, the loss series is the per-move
losses with a final value over 50 forced to 0 and a final value of at most 50
kept; on the two games with losses `[10, 20, 99]` and `[5, 15]` the column
means are `7.5`, `17.5` and `0`. -/
theorem losses_tail_correction (g : GameReport) (h : g.moves ≠ []) :
    (∃ last, (g.moves.map (fun m => m.loss)).getLast? = some last ∧
      GameReport.losses g =
        some ((g.moves.map (fun m => m.loss)).dropLast ++ [if 50 < last then 0 else last])) ∧
    averageLossByMove ⟨[sampleGame 0 [10, 20, 99], sampleGame 0 [5, 15]]⟩ =
      some [15/2, 35/2, 0] := by
  constructor
  · have hml : g.moves.map (fun m => m.loss) ≠ [] := by
      simpa using h
    refine ⟨(g.moves.map (fun m => m.loss)).getLast hml,
      List.getLast?_eq_getLast _ hml, ?_⟩
    rw [GameReport.losses]
    simp only [List.getLast?_eq_getLast _ hml]
    by_cases hgt : 50 < (g.moves.map (fun m => m.loss)).getLast hml
    · rw [if_pos hgt, if_pos hgt, set_last_eq_dropLast_append _ _ hml]
    · rw [if_neg hgt, if_neg hgt, List.dropLast_append_getLast hml]
  · have hL : GameReportStore.losses ⟨[sampleGame 0 [10, 20, 99], sampleGame 0 [5, 15]]⟩ =
        some [[10, 20, 0], [5, 15]] := by decide
    rw [averageLossByMove, if_neg (by decide), hL, Option.map_some']
    simp only [embedQ, List.map]
    norm_num [zipAvgLOL, zipLOL, maxLen, zipBins, avgQ, List.getD, List.replicate,
      List.enum, List.enumFrom]

/-- Witness for the loss-series correction at the game with losses
`[10, 20, 99]`. -/
theorem losses_tail_correction_witness :
    (∃ last, ((sampleGame 0 [10, 20, 99]).moves.map (fun m => m.loss)).getLast? = some last ∧
      GameReport.losses (sampleGame 0 [10, 20, 99]) =
        some (((sampleGame 0 [10, 20, 99]).moves.map (fun m => m.loss)).dropLast ++
          [if 50 < last then 0 else last])) ∧
    averageLossByMove ⟨[sampleGame 0 [10, 20, 99], sampleGame 0 [5, 15]]⟩ =
      some [15/2, 35/2, 0] :=
  losses_tail_correction (sampleGame 0 [10, 20, 99]) (by decide)

/-- C10: `GameReport.losses` is partial — a game with no moves hits the
unguarded `losses[-1]` and raises, and a collection containing such a game
makes `GameReportStore.losses` and any unguarded loss aggregation raise. -/
theorem losses_empty_crash (g : GameReport) (s : GameReportStore) (h : g.moves = [])
    (hmem : g ∈ s.gameReports) :
    GameReport.losses g = none ∧ GameReportStore.losses s = none ∧
    (longestGame s ≠ 0 → averageLossByMove s = none) := by
  have hg : GameReport.losses g = none := by
    rw [GameReport.losses, h]
    rfl
  have key : ∀ l : List GameReport, g ∈ l → l.mapM GameReport.losses = none := by
    intro l
    induction l with
    | nil => intro hc; cases hc
    | cons a t ih =>
        intro hmem'
        rw [List.mapM_cons]
        rcases List.mem_cons.mp hmem' with h' | h'
        · subst h'
          rw [hg]
          rfl
        · cases ha : GameReport.losses a with
          | none => rfl
          | some la =>
              rw [ih h']
              rfl
  have hstore : GameReportStore.losses s = none := key s.gameReports hmem
  refine ⟨hg, hstore, ?_⟩
  intro hlg
  rw [averageLossByMove, if_neg hlg, hstore]
  rfl

/-- Witness: a zero-move game alongside a two-move game crashes the loss
aggregations. -/
theorem losses_empty_crash_witness :
    GameReport.losses (sampleGame 7 []) = none ∧
    GameReportStore.losses ⟨[sampleGame 7 [], sampleGame 9 [1, 2]]⟩ = none ∧
    averageLossByMove ⟨[sampleGame 7 [], sampleGame 9 [1, 2]]⟩ = none :=
  ⟨(losses_empty_crash (sampleGame 7 []) ⟨[sampleGame 7 [], sampleGame 9 [1, 2]]⟩
      rfl (by decide)).1,
   (losses_empty_crash (sampleGame 7 []) ⟨[sampleGame 7 [], sampleGame 9 [1, 2]]⟩
      rfl (by decide)).2.1,
   (losses_empty_crash (sampleGame 7 []) ⟨[sampleGame 7 [], sampleGame 9 [1, 2]]⟩
      rfl (by decide)).2.2 (by decide)⟩

/-! ### The by-move guard paths -/

lemma foldr_max_zero {l : List ℕ} (h : l.foldr max 0 = 0) : ∀ x ∈ l, x = 0 := by
  induction l with
  | nil => intro x hx; cases hx
  | cons a t ih =>
      intro x hx
      rw [List.foldr_cons] at h
      rcases Nat.max_eq_zero_iff.mp h with ⟨ha, ht⟩
      rcases List.mem_cons.mp hx with h' | h'
      · subst h'; exact ha
      · exact ih ht x h'

lemma longestGame_zero_moves {s : GameReportStore} (h : longestGame s = 0) :
    ∀ g ∈ s.gameReports, g.moves = [] := by
  intro g hg
  rw [longestGame] at h
  by_cases hr : s.gameReports = []
  · rw [hr] at hg; cases hg
  · rw [if_neg hr] at h
    exact List.length_eq_zero.mp
      (foldr_max_zero h g.moves.length (List.mem_map.mpr ⟨g, hg, rfl⟩))

lemma foldl_append_all_nil (xs : List (List ℤ)) (h : ∀ l ∈ xs, l = []) :
    xs.foldl (fun a l => a ++ l) [] = [] := by
  have key : ∀ acc : List ℤ, xs.foldl (fun a l => a ++ l) acc = acc := by
    induction xs with
    | nil => intro acc; rfl
    | cons x t ih =>
        intro acc
        rw [List.foldl_cons, h x (List.mem_cons_self _ _), List.append_nil]
        exact ih (fun l hl => h l (List.mem_cons_of_mem _ hl)) acc
  exact key []

/-- C3 (amended): the four guarded by-move variants return an empty result
when the longest game is empty; `binnedMoveActivations` is not guarded — on a
non-empty collection of zero-move games it returns a full all-zero histogram
(and on the empty collection it raises, see the counterexample). -/
theorem byMove_guards (s : GameReportStore) (h : longestGame s = 0) :
    averageLossByMove s = some [] ∧ averageRankByMove s = [] ∧
    stdBracketLossByMove s = some ([], []) ∧ stdBracketRankByMove s = ([], []) ∧
    (s.gameReports ≠ [] → binnedMoveActivations s = some (List.replicate 10 0)) := by
  refine ⟨by rw [averageLossByMove, if_pos h], by rw [averageRankByMove, if_pos h],
    by rw [stdBracketLossByMove, if_pos h], by rw [stdBracketRankByMove, if_pos h], ?_⟩
  intro hne
  have hmoves := longestGame_zero_moves h
  cases hr : s.gameReports with
  | nil => cases hne hr
  | cons g gs =>
      have hg : GameReport.activations g = [] := by
        rw [GameReport.activations, hmoves g (by rw [hr]; exact List.mem_cons_self _ _)]
        rfl
      rw [binnedMoveActivations, hr, List.map_cons, hg]
      show some (decileHistogram
        ((gs.map GameReport.activations).foldl (fun acc l => acc ++ l) [])) =
        some (List.replicate 10 0)
      have hall : ∀ l ∈ gs.map GameReport.activations, l = [] := by
        intro l hl
        rcases List.mem_map.mp hl with ⟨g', hg', rfl⟩
        rw [GameReport.activations,
          hmoves g' (by rw [hr]; exact List.mem_cons_of_mem _ hg')]
        rfl
      rw [foldl_append_all_nil _ hall]
      rfl

/-- C3 (counterexample): on the empty collection `binnedMoveActivations`
raises (`reduce` of an empty iterable) instead of returning an empty result. -/
theorem binnedMoveActivations_empty_counterexample :
    binnedMoveActivations ⟨[]⟩ = none := rfl

/-- Witness for the guard theorem at a one-game collection whose game has no
moves. -/
theorem byMove_guards_witness :
    averageLossByMove ⟨[sampleGame 3 []]⟩ = some [] ∧
    averageRankByMove ⟨[sampleGame 3 []]⟩ = [] ∧
    stdBracketLossByMove ⟨[sampleGame 3 []]⟩ = some ([], []) ∧
    stdBracketRankByMove ⟨[sampleGame 3 []]⟩ = ([], []) ∧
    binnedMoveActivations ⟨[sampleGame 3 []]⟩ = some (List.replicate 10 0) :=
  ⟨(byMove_guards ⟨[sampleGame 3 []]⟩ (by decide)).1,
   (byMove_guards ⟨[sampleGame 3 []]⟩ (by decide)).2.1,
   (byMove_guards ⟨[sampleGame 3 []]⟩ (by decide)).2.2.1,
   (byMove_guards ⟨[sampleGame 3 []]⟩ (by decide)).2.2.2.1,
   (byMove_guards ⟨[sampleGame 3 []]⟩ (by decide)).2.2.2.2 (by decide)⟩

/-! ### The decile histogram -/

lemma sum_map_add {β : Type} (G : List β) (u v : β → ℤ) :
    (G.map (fun g => u g + v g)).sum = (G.map u).sum + (G.map v).sum := by
  induction G with
  | nil => rfl
  | cons a t ih =>
      simp only [List.map_cons, List.sum_cons, ih]
      ring

lemma sum_swap_list {α β : Type} (R : List α) (G : List β) (f : α → β → ℤ) :
    (R.map (fun i => (G.map (f i)).sum)).sum =
      (G.map (fun g => (R.map (fun i => f i g)).sum)).sum := by
  induction R with
  | nil => simp
  | cons i R ih =>
      rw [List.map_cons, List.sum_cons, ih]
      simp only [List.map_cons, List.sum_cons]
      rw [sum_map_add]

lemma sum_ite_one {β : Type} (G : List β) (P : β → Prop) [DecidablePred P] :
    (G.map (fun g => if P g then (1 : ℤ) else 0)).sum =
      ((G.countP (fun g => decide (P g)) : ℕ) : ℤ) := by
  induction G with
  | nil => rfl
  | cons a t ih =>
      rw [List.map_cons, List.sum_cons, ih, List.countP_cons]
      by_cases h : P a <;> simp [h] <;> ring

lemma decile_indicator_sum (a : ℤ) (h0 : 0 ≤ a) (h1 : a < 100) :
    ((List.range' 0 10 10).map
      (fun (i : ℕ) => if ((i : ℕ) : ℤ) ≤ a ∧ a < ((i : ℕ) : ℤ) + 10 then (1 : ℤ) else 0)).sum = 1 := by
  have hr : List.range' 0 10 10 = [0, 10, 20, 30, 40, 50, 60, 70, 80, 90] := rfl
  rw [hr]
  interval_cases a <;> decide

/-- The four-game example collection of activations `5, 15, 25, 95`. -/
def exampleStore : GameReportStore :=
  ⟨[sampleGame 5 [], sampleGame 15 [], sampleGame 25 [], sampleGame 95 []]⟩

/-- C5 (amended): for a collection whose activations lie in `[0, 100)`, the
histogram has length 10, sums to the number of games, and its entry `j` counts
the games with activation in `[90 - 10j, 100 - 10j)`; the four activations
`5, 15, 25, 95` yield `[1,0,0,0,0,0,0,1,1,1]`. -/
theorem binnedActivations_spec (s : GameReportStore)
    (h : ∀ g ∈ s.gameReports, 0 ≤ g.activation ∧ g.activation < 100)
    (j : ℕ) (hj : j < 10) :
    (binnedActivations s).length = 10 ∧
    (binnedActivations s).sum = (s.gameReports.length : ℤ) ∧
    (binnedActivations s)[j]? =
      some ((s.gameReports.countP (fun g =>
        decide (90 - 10 * (j : ℤ) ≤ g.activation ∧ g.activation < 100 - 10 * (j : ℤ))) : ℕ) : ℤ) ∧
    binnedActivations exampleStore = [1, 0, 0, 0, 0, 0, 0, 1, 1, 1] := by
  refine ⟨?_, ?_, ?_, by decide⟩
  · rw [binnedActivations, decileHistogram]
    simp
  · rw [binnedActivations, decileHistogram, List.sum_reverse, sum_swap_list]
    have hone : ∀ a ∈ s.gameReports.map (fun g => g.activation),
        ((List.range' 0 10 10).map
          (fun (i : ℕ) => if ((i : ℕ) : ℤ) ≤ a ∧ a < ((i : ℕ) : ℤ) + 10
            then (1 : ℤ) else 0)).sum = 1 := by
      intro a ha
      rcases List.mem_map.mp ha with ⟨g, hg, rfl⟩
      exact decile_indicator_sum _ (h g hg).1 (h g hg).2
    rw [List.map_congr_left hone, List.map_const', List.sum_replicate]
    simp
  · have hlen10 : ((List.range' 0 10 10).map (fun (i : ℕ) =>
        ((s.gameReports.map (fun g => g.activation)).map
          (fun a => if ((i : ℕ) : ℤ) ≤ a ∧ a < ((i : ℕ) : ℤ) + 10
            then (1 : ℤ) else 0)).sum)).length = 10 := by
      simp
    rw [binnedActivations, decileHistogram,
      List.getElem?_reverse (by rw [hlen10]; exact hj), hlen10,
      List.getElem?_map, List.getElem?_range' _ _ (show 10 - 1 - j < 10 by omega),
      Option.map_some']
    congr 1
    rw [List.map_map]
    rw [show ((fun a => if ((0 + 10 * (10 - 1 - j) : ℕ) : ℤ) ≤ a ∧
        a < ((0 + 10 * (10 - 1 - j) : ℕ) : ℤ) + 10 then (1 : ℤ) else 0) ∘
          (fun g : GameReport => g.activation)) =
        fun g : GameReport => if ((0 + 10 * (10 - 1 - j) : ℕ) : ℤ) ≤ g.activation ∧
          g.activation < ((0 + 10 * (10 - 1 - j) : ℕ) : ℤ) + 10 then (1 : ℤ) else 0 from rfl,
      sum_ite_one]
    congr 1
    apply List.countP_congr
    intro g _
    simp only [decide_eq_true_eq]
    omega

/-- Witness for the histogram theorem at the four-game example collection and
`j = 0`. -/
theorem binnedActivations_spec_witness :
    (binnedActivations exampleStore).length = 10 ∧
    (binnedActivations exampleStore).sum = (exampleStore.gameReports.length : ℤ) ∧
    (binnedActivations exampleStore)[0]? =
      some ((exampleStore.gameReports.countP (fun g =>
        decide (90 - 10 * ((0 : ℕ) : ℤ) ≤ g.activation ∧
          g.activation < 100 - 10 * ((0 : ℕ) : ℤ))) : ℕ) : ℤ) ∧
    binnedActivations exampleStore = [1, 0, 0, 0, 0, 0, 0, 1, 1, 1] :=
  binnedActivations_spec exampleStore (by decide) 0 (by decide)

/-- C5 (counterexample): the claim admits activations in the closed interval
`[0, 100]`, but the value `100` falls into no decile bin, so a single game of
activation `100` produces a histogram summing to `0`, not to the number of
games. -/
theorem binnedActivations_hundred_counterexample :
    (0 ≤ (sampleGame 100 []).activation ∧ (sampleGame 100 []).activation ≤ 100) ∧
    (binnedActivations ⟨[sampleGame 100 []]⟩).sum = 0 ∧
    ((⟨[sampleGame 100 []]⟩ : GameReportStore).gameReports.length : ℤ) = 1 := by
  decide

/-- Witness: the activation-95 game is kept by `topGames` at the small
percentile `p = 1/100`. -/
theorem topGames_includes_extreme_witness :
    sampleGame 95 [] ∈ (⟨[sampleGame 5 [], sampleGame 95 []]⟩ : GameReportStore).gameReports ∧
    (90 : ℤ) ≤ (sampleGame 95 []).activation ∧
    sampleGame 95 [] ∈ topGames (1/100) ⟨[sampleGame 5 [], sampleGame 95 []]⟩ :=
  ⟨by decide, by decide,
    topGames_includes_extreme (1/100) ⟨[sampleGame 5 [], sampleGame 95 []]⟩ _ (by decide)
      (by decide)⟩

/-! ### The report builder and the serialization adapters -/

/-- C8 (amended): `GameReport.new` silently truncates to the shorter of the
analysed-move list and the prediction-entry list (and `movePredictions` itself
truncates to the shorter of its two component lists); no error is raised. -/
theorem buildGame_truncates (ag : AnalysedGame) (act : ℤ) (gp : GamePredictions)
    (reportId : String) (userId : String) :
    (GameReport.new ag act gp reportId userId).moves.length =
      min ag.analysedMoves.length (movePredictions gp).length ∧
    (movePredictions gp).length = min gp.c1.length gp.c2.length := by
  constructor
  · rw [GameReport.new]
    simp [List.length_zip]
  · rw [movePredictions, List.length_zip]

/-- C8 (counterexample): called with two analysed moves and a single
prediction entry, `GameReport.new` returns a one-move report instead of
failing fast. -/
theorem buildGame_truncates_counterexample :
    (GameReport.new ⟨"g", [⟨none, 0, 0, 0⟩, ⟨none, 0, 0, 0⟩]⟩ 5 ⟨[1], [1]⟩ "r" "u").moves.length
        = 1 ∧
    (⟨"g", [⟨none, (0 : ℤ), (0 : ℚ), (0 : ℚ)⟩, ⟨none, 0, 0, 0⟩]⟩ :
      AnalysedGame).analysedMoves.length = 2 := by
  constructor
  · rfl
  · rfl

/-- C9: serializing a game report (its move reports included) with the BSON
adapter and deserializing the result restores the report field for field. -/
theorem bson_round_trip (g : GameReport) (mv : MoveReport) :
    GameReportBSONHandler.reads (GameReportBSONHandler.writes g) = g ∧
    MoveReportBSONHandler.reads (MoveReportBSONHandler.writes mv) = mv := by
  have hmv : ∀ m : MoveReport,
      MoveReportBSONHandler.reads (MoveReportBSONHandler.writes m) = m := by
    intro m
    cases m
    rfl
  have hcomp : (MoveReportBSONHandler.reads ∘ MoveReportBSONHandler.writes) =
      (fun m : MoveReport => m) :=
    funext (fun m => hmv m)
  constructor
  · cases g with
    | mk gi grid ggid gact gmoves =>
        rw [GameReportBSONHandler.writes, GameReportBSONHandler.reads]
        simp only [List.map_map, hcomp]
        simp
  · exact hmv mv
